import Mathlib

/-!
Verification of the statistical aggregation core of the
information-visualization repository: Pearson correlation
(`CorrelationMatrix.calculateCorrelation`, `CategoryHeatmap.calculateCorrelation`),
ordinary least squares regression (`ScatterPlot.calculateLinearRegression`),
and equal-width binning (`CategoryHeatmap.createBins` / `processData`).

Modelling conventions, shared by all embeddings below:
* JavaScript numbers are modelled by exact rationals `ℚ`; a possibly-NaN
  value is `Option ℚ` (`none` = NaN).  `Math.sqrt` forces the final
  correlation arithmetic into `ℝ`.
* A JS arithmetic result that is non-finite (NaN or ±Infinity, which in this
  code can only arise from a division whose denominator is `0`) is modelled
  as `none`.  Record results track each field separately, because `d3.sum`
  ignores NaN terms: a NaN slope does not make `r2` NaN.
* `d3.sum`/`d3.mean` ignore NaN and `undefined` entries; where that matters
  (out-of-range indexing in `CategoryHeatmap.calculateCorrelation`) the
  embedding keeps exactly the surviving terms and says so in its comment.
-/

namespace InfoVis

/-- A JavaScript number that may be NaN: `none` models NaN, `some q` a
finite value. -/
abbrev JsNum := Option ℚ

/-- JS division over the rationals, tracking non-finiteness: dividing by `0`
yields NaN or ±Infinity, modelled as `none`. -/
def jdivQ (a b : ℚ) : Option ℚ := if b = 0 then none else some (a / b)

open Classical in
/-- JS division with a real denominator (the correlation denominators go
through `Math.sqrt`); `none` models the non-finite result of dividing
by `0`. -/
noncomputable def jdivR (a b : ℝ) : Option ℝ := if b = 0 then none else some (a / b)

/-- `d3.mean(l) || 0` as used at every call site: the arithmetic mean, with
`0` substituted when the list is empty (`d3.mean` returns `undefined`
there, and `|| 0` maps it to `0`). -/
def jsMean (l : List ℚ) : ℚ := if l.length = 0 then 0 else l.sum / l.length

namespace CorrelationMatrix

/-- The paired samples built by `CorrelationMatrix.calculateCorrelation`:
`x.slice(0, n).map((xi, i) => ({x: xi, y: y[i]})).filter(d => !isNaN(d.x) && !isNaN(d.y))`
with `n = Math.min(x.length, y.length)`. -/
def pairedData (x y : List JsNum) : List (ℚ × ℚ) :=
  let n := min x.length y.length
  ((x.take n).zip (y.take n)).filterMap fun d =>
    match d with
    | (some a, some b) => some (a, b)
    | _ => none

/-- The numerator `d3.sum(pairedData, d => (d.x - meanX) * (d.y - meanY))`. -/
def corrNum (pd : List (ℚ × ℚ)) : ℚ :=
  (pd.map fun d =>
    (d.1 - jsMean (pd.map Prod.fst)) * (d.2 - jsMean (pd.map Prod.snd))).sum

/-- The centered sum of squares `d3.sum(pairedData, d => Math.pow(d.x - meanX, 2))`
whose square root is `denomX`. -/
def corrSxx (pd : List (ℚ × ℚ)) : ℚ :=
  (pd.map fun d => (d.1 - jsMean (pd.map Prod.fst)) ^ 2).sum

/-- The centered sum of squares `d3.sum(pairedData, d => Math.pow(d.y - meanY, 2))`
whose square root is `denomY`. -/
def corrSyy (pd : List (ℚ × ℚ)) : ℚ :=
  (pd.map fun d => (d.2 - jsMean (pd.map Prod.snd)) ^ 2).sum

open Classical in
/-- `CorrelationMatrix.calculateCorrelation` (src/correlationMatrix.ts,
lines 92-109): pair and NaN-filter the inputs, return `0` for fewer than
two pairs, return `0` when either square-root denominator is `0`, else
`numerator / (denomX * denomY)`. -/
noncomputable def calculateCorrelation (x y : List JsNum) : Option ℝ :=
  let pd := pairedData x y
  if pd.length < 2 then some 0
  else if Real.sqrt (corrSxx pd : ℝ) = 0 ∨ Real.sqrt (corrSyy pd : ℝ) = 0 then some 0
  else jdivR (corrNum pd : ℝ) (Real.sqrt (corrSxx pd : ℝ) * Real.sqrt (corrSyy pd : ℝ))

/-- One entry of the matrix built by `CorrelationMatrix.initializeData`:
`correlationMatrix[i][j] = calculateCorrelation(numericData[vars[i]], numericData[vars[j]])`,
where each `numericData` column has already been NaN-filtered
(`csvData.map(d => +d[variable]).filter(v => !isNaN(v))`), so the fields
are plain rational columns. -/
noncomputable def matrixEntry (fields : List (List ℚ)) (i j : ℕ) : Option ℝ :=
  calculateCorrelation ((fields.getD i []).map some) ((fields.getD j []).map some)

end CorrelationMatrix

namespace ScatterPlot

/-- The `{slope, intercept, r2}` record returned by
`ScatterPlot.calculateLinearRegression`, each field NaN-tracked
separately. -/
structure RegressionResult where
  slope : Option ℚ
  intercept : Option ℚ
  r2 : Option ℚ
deriving DecidableEq

/-- `ScatterPlot.calculateLinearRegression` (src/scatterPlot.ts, lines
214-233).  The source also computes `sumY2`, which it never uses, so it is
omitted; `meanY` and `totalSumSquares` do not depend on the slope and are
hoisted above the case split on it.  Neither division is guarded, and the
two failures are independent:
* when `n·Σx² − (Σx)² = 0` (all `x` identical) the slope is `0/0 = NaN`
  (the numerator is then `0` too) and the intercept is NaN with it; every
  residual `y − (slope·x + intercept)` is then NaN and `d3.sum` *ignores*
  NaN terms, so `residualSumSquares` is `0` and
  `r2 = 1 − 0/totalSumSquares` is still produced — `1` when the total sum
  of squares is nonzero, NaN otherwise;
* when only the total sum of squares is `0` (all `y` identical, `x` not),
  slope and intercept are finite and only `r2` is non-finite. -/
def calculateLinearRegression (data : List (ℚ × ℚ)) : RegressionResult :=
  if data.length < 2 then ⟨some 0, some 0, some 0⟩
  else
    let n : ℚ := data.length
    let sumX := (data.map Prod.fst).sum
    let sumY := (data.map Prod.snd).sum
    let sumXY := (data.map fun d => d.1 * d.2).sum
    let sumX2 := (data.map fun d => d.1 * d.1).sum
    let meanY := sumY / n
    let totalSumSquares := (data.map fun d => (d.2 - meanY) ^ 2).sum
    match jdivQ (n * sumXY - sumX * sumY) (n * sumX2 - sumX * sumX) with
    | none =>
      ⟨none, none, (jdivQ 0 totalSumSquares).map fun q => 1 - q⟩
    | some slope =>
      let intercept := (sumY - slope * sumX) / n
      let residualSumSquares :=
        (data.map fun d => (d.2 - (slope * d.1 + intercept)) ^ 2).sum
      ⟨some slope, some intercept,
        (jdivQ residualSumSquares totalSumSquares).map fun q => 1 - q⟩

end ScatterPlot

namespace CategoryHeatmap

open Classical in
/-- `CategoryHeatmap.calculateCorrelation` (src/categoryHeatmap.ts, lines
152-166).  Unlike the `CorrelationMatrix` version it never slices the
inputs: the means and the two denominators range over the *whole* of `x`
and of `y` respectively.  The numerator is
`d3.sum(x, (xi, i) => (xi - meanX) * (y[i] - meanY))`; for `i ≥ y.length`
the term is NaN (`y[i]` is `undefined`) and `d3.sum` ignores it, so the
surviving terms are exactly the index pairs `x.zip y`. -/
noncomputable def calculateCorrelation (x y : List ℚ) : Option ℝ :=
  if min x.length y.length < 2 then some 0
  else
    let meanX := jsMean x
    let meanY := jsMean y
    let numerator := ((x.zip y).map fun d => (d.1 - meanX) * (d.2 - meanY)).sum
    let denomX := Real.sqrt (((x.map fun xi => (xi - meanX) ^ 2).sum : ℚ) : ℝ)
    let denomY := Real.sqrt (((y.map fun yi => (yi - meanY) ^ 2).sum : ℚ) : ℝ)
    if denomX = 0 ∨ denomY = 0 then some 0
    else jdivR (numerator : ℝ) (denomX * denomY)

/-- One bin produced by `createBins`; `min`/`max` are possibly-NaN
(`d3.extent` of an empty list is `[undefined, undefined]` and
`Math.floor(undefined)` is NaN). -/
structure Bin where
  min : JsNum
  max : JsNum
  label : String
deriving DecidableEq

/-- `d3.extent(values)`: the (min, max) pair, `undefined` on an empty
list.  `List.min?`/`List.max?` fold `min`/`max` over the list exactly as
`d3.extent`'s scan does. -/
def jsExtent (l : List ℚ) : JsNum × JsNum := (l.min?, l.max?)

/-- `Number.prototype.toFixed(1)`: the ECMAScript algorithm first extracts
the sign (`If x < 0, set s to "-" and x to -x`), then picks the integer
`n` with `n / 10` closest to the now-nonnegative `x`, the larger candidate
on a tie — so ties round away from zero, e.g. `(-0.75).toFixed(1)` is
`"-0.8"` — and renders one digit after the point. -/
def ratToFixed1 (q : ℚ) : String :=
  let n : ℤ := ⌊10 * |q| + 1 / 2⌋
  (if q < 0 then "-" else "") ++ Nat.repr (n.natAbs / 10) ++ "." ++ Nat.repr (n.natAbs % 10)

/-- `toFixed(1)` on a possibly-NaN value: `NaN.toFixed(1)` is `"NaN"`. -/
def jsToFixed1 : JsNum → String
  | none => "NaN"
  | some q => ratToFixed1 q

/-- NaN-propagating subtraction. -/
def oSub : JsNum → JsNum → JsNum
  | some a, some b => some (a - b)
  | _, _ => none

/-- NaN-propagating addition. -/
def oAdd : JsNum → JsNum → JsNum
  | some a, some b => some (a + b)
  | _, _ => none

/-- NaN-propagating multiplication. -/
def oMul : JsNum → JsNum → JsNum
  | some a, some b => some (a * b)
  | _, _ => none

/-- NaN-propagating division by a plain count; dividing by `0` is
non-finite, hence `none`. -/
def oDivN (a : JsNum) (m : ℕ) : JsNum :=
  match a with
  | some q => if m = 0 then none else some (q / m)
  | none => none

/-- `CategoryHeatmap.createBins` (src/categoryHeatmap.ts, lines 76-91):
`globalMin = Math.floor(extent[0])`, `globalMax = Math.ceil(extent[1])`,
`binSize = (globalMax - globalMin) / numBins`, and `numBins` bins with
`min = globalMin + i·binSize`, `max = globalMin + (i+1)·binSize`,
`label = min.toFixed(1) + "-" + max.toFixed(1)`. -/
def createBins (values : List ℚ) (numBins : ℕ := 6) : List Bin :=
  let extent := jsExtent values
  let globalMin := extent.1.map fun q => (⌊q⌋ : ℚ)
  let globalMax := extent.2.map fun q => (⌈q⌉ : ℚ)
  let binSize := oDivN (oSub globalMax globalMin) numBins
  (List.range numBins).map fun (i : ℕ) =>
    let bmin := oAdd globalMin (oMul (some (i : ℚ)) binSize)
    let bmax := oAdd globalMin (oMul ((some ((i : ℚ) + 1))) binSize)
    { min := bmin, max := bmax, label := jsToFixed1 bmin ++ "-" ++ jsToFixed1 bmax }

/-- JS `v >= b` where `b` may be NaN: every comparison with NaN is false. -/
def jsGe (v : ℚ) : JsNum → Bool
  | some b => decide (b ≤ v)
  | none => false

/-- JS `v < b` where `b` may be NaN: every comparison with NaN is false. -/
def jsLt (v : ℚ) : JsNum → Bool
  | some b => decide (v < b)
  | none => false

/-- One cell of `heatmapData`. -/
structure HeatmapCell where
  category1Value : JsNum
  category2Value : JsNum
  category1Bin : String
  category2Bin : String
  count : ℕ
  correlation : Option ℝ

/-- `CategoryHeatmap.processData` (src/categoryHeatmap.ts, lines 93-150),
restricted to the two selected numeric columns: each input row is the pair
of that row's two category values (possibly NaN).  Rows where either value
is NaN are filtered out (`validData`), both columns are binned with the
default `numBins = 6`, and for every bin pair the cell records the points
`p` with `bin.min <= p < bin.max` in *both* coordinates — a strict upper
bound in every bin, including the last. -/
noncomputable def processData (data : List (JsNum × JsNum)) : List HeatmapCell :=
  if data.length = 0 then []
  else
    let validData := data.filterMap fun d =>
      match d with
      | (some a, some b) => some (a, b)
      | _ => none
    let bins1 := createBins (validData.map Prod.fst)
    let bins2 := createBins (validData.map Prod.snd)
    bins1.flatMap fun bin1 => bins2.map fun bin2 =>
      let pointsInBin := validData.filter fun d =>
        jsGe d.1 bin1.min && jsLt d.1 bin1.max && jsGe d.2 bin2.min && jsLt d.2 bin2.max
      if 0 < pointsInBin.length then
        { category1Value := some (jsMean (pointsInBin.map Prod.fst))
          category2Value := some (jsMean (pointsInBin.map Prod.snd))
          category1Bin := bin1.label
          category2Bin := bin2.label
          count := pointsInBin.length
          correlation :=
            calculateCorrelation (pointsInBin.map Prod.fst) (pointsInBin.map Prod.snd) }
      else
        { category1Value := oDivN (oAdd bin1.min bin1.max) 2
          category2Value := oDivN (oAdd bin2.min bin2.max) 2
          category1Bin := bin1.label
          category2Bin := bin2.label
          count := 0
          correlation := some 0 }

end CategoryHeatmap

/-! ### General helper lemmas -/

lemma sum_sq_nonneg (l : List ℚ) (m : ℚ) : 0 ≤ (l.map fun x => (x - m) ^ 2).sum := by
  apply List.sum_nonneg
  intro x hx
  obtain ⟨v, -, rfl⟩ := List.mem_map.1 hx
  positivity

lemma sum_sq_pos_of_ne (l : List ℚ) (m a b : ℚ) (ha : a ∈ l) (hb : b ∈ l) (hab : a ≠ b) :
    0 < (l.map fun x => (x - m) ^ 2).sum := by
  have hc : ∃ c ∈ l, c ≠ m := by
    rcases eq_or_ne a m with rfl | h
    · exact ⟨b, hb, fun h => hab h.symm⟩
    · exact ⟨a, ha, h⟩
  obtain ⟨c, hc, hcm⟩ := hc
  have hcm0 : c - m ≠ 0 := sub_ne_zero.mpr hcm
  have h1 : (0 : ℚ) < (c - m) ^ 2 := by positivity
  have h2 : (c - m) ^ 2 ≤ (l.map fun x => (x - m) ^ 2).sum := by
    apply List.single_le_sum
    · intro x hx
      obtain ⟨v, -, rfl⟩ := List.mem_map.1 hx
      positivity
    · exact List.mem_map_of_mem _ hc
  linarith

lemma two_le_length_of_ne (l : List ℚ) (a b : ℚ) (ha : a ∈ l) (hb : b ∈ l) (hab : a ≠ b) :
    2 ≤ l.length := by
  match l with
  | [] => simp at ha
  | [c] =>
    simp at ha hb
    exact absurd (ha.trans hb.symm) hab
  | c :: d :: t => simp [Nat.succ_le_succ, Nat.le_add_left]

lemma jsMean_of_all_eq (l : List ℚ) (c : ℚ) (h : ∀ x ∈ l, x = c) (hne : l ≠ []) :
    jsMean l = c := by
  have hlen : l.length ≠ 0 := by simpa [List.length_eq_zero] using hne
  have hsum : l.sum = l.length • c := List.sum_eq_card_nsmul l c h
  have hq : (l.length : ℚ) ≠ 0 := Nat.cast_ne_zero.2 hlen
  rw [jsMean, if_neg hlen, hsum, nsmul_eq_mul]
  field_simp

lemma sum_map_affine (l : List ℚ) (a b : ℚ) :
    (l.map fun x => a * x + b).sum = a * l.sum + b * l.length := by
  induction l with
  | nil => simp
  | cons x t ih =>
    simp only [List.map_cons, List.sum_cons, ih, List.length_cons, Nat.cast_succ]
    ring

lemma sum_map_quad (l : List ℚ) (a b : ℚ) :
    (l.map fun x => x * (a * x + b)).sum = a * (l.map fun x => x * x).sum + b * l.sum := by
  induction l with
  | nil => simp
  | cons x t ih =>
    simp only [List.map_cons, List.sum_cons, ih]
    ring

lemma sum_map_sub_sq (l : List ℚ) (m : ℚ) :
    (l.map fun x => (x - m) ^ 2).sum =
      (l.map fun x => x * x).sum - 2 * m * l.sum + l.length * m ^ 2 := by
  induction l with
  | nil => simp
  | cons x t ih =>
    simp only [List.map_cons, List.sum_cons, ih, List.length_cons, Nat.cast_succ]
    ring

/-- The OLS slope denominator `n·Σx² − (Σx)²` equals `n · Σ(x − x̄)²`. -/
lemma slope_den_eq (l : List ℚ) (h : l.length ≠ 0) :
    (l.length : ℚ) * (l.map fun x => x * x).sum - l.sum * l.sum =
      (l.length : ℚ) * (l.map fun x => (x - l.sum / l.length) ^ 2).sum := by
  have hq : (l.length : ℚ) ≠ 0 := Nat.cast_ne_zero.2 h
  rw [sum_map_sub_sq]
  field_simp
  ring

/-! ### C2 — the regression guards the spec requires are absent -/

/-- C2: neither regression division is guarded.  At `[(1,1),(1,2)]` (two
samples, all `x` identical) the slope denominator is `0`, so the program
returns NaN slope and intercept (`r2` is `1` there, because `d3.sum`
skips the NaN residuals).  At `[(0,5),(1,5)]` (all `y` identical) the
total sum of squares is `0` and `r2` is non-finite.  The claim requires
finite guarded fallbacks in both cases. -/
theorem linearRegression_nan_on_constant_x :
    ScatterPlot.calculateLinearRegression [(1, 1), (1, 2)] =
      ⟨none, none, some 1⟩ ∧
    ScatterPlot.calculateLinearRegression [(0, 5), (1, 5)] =
      ⟨some 0, some 5, none⟩ := by
  constructor <;>
    norm_num [ScatterPlot.calculateLinearRegression, jdivQ,
      ScatterPlot.RegressionResult.mk.injEq]

/-! ### C9 — the regression line passes through the centroid when it exists -/

/-- C9 as stated is false: at `[(1,1),(1,2)]` (at least 2 samples, all `x`
identical) the returned slope and intercept are NaN, so no finite
intercept satisfies the centroid identity there. -/
theorem regression_centroid_cex :
    ¬ (∀ data : List (ℚ × ℚ), 2 ≤ data.length →
        ∃ s i r, ScatterPlot.calculateLinearRegression data = ⟨some s, some i, r⟩ ∧
          i = jsMean (data.map Prod.snd) - s * jsMean (data.map Prod.fst)) := by
  intro h
  have hval : ScatterPlot.calculateLinearRegression [(1, 1), (1, 2)] =
      ⟨none, none, some 1⟩ := by
    norm_num [ScatterPlot.calculateLinearRegression, jdivQ,
      ScatterPlot.RegressionResult.mk.injEq]
  obtain ⟨s, i, r, heq, -⟩ := h [(1, 1), (1, 2)] (by norm_num)
  rw [hval] at heq
  simp only [ScatterPlot.RegressionResult.mk.injEq] at heq
  exact Option.noConfusion heq.1

/-- C9 amended: whenever the regression returns a finite slope and
intercept on at least 2 samples — whether or not `r2` is finite — the
intercept satisfies `intercept = mean(ys) − slope·mean(xs)` (the line
passes through the centroid).  This is the full complement of the
counterexample: slope and intercept are finite exactly when the slope
denominator is nonzero, i.e. the `x` values are not all identical. -/
theorem regression_centroid (data : List (ℚ × ℚ)) (s i : ℚ) (r : Option ℚ)
    (hlen : 2 ≤ data.length)
    (heq : ScatterPlot.calculateLinearRegression data = ⟨some s, some i, r⟩) :
    i = jsMean (data.map Prod.snd) - s * jsMean (data.map Prod.fst) := by
  have hlt : ¬ data.length < 2 := by omega
  simp only [ScatterPlot.calculateLinearRegression, if_neg hlt] at heq
  split at heq
  · simp only [ScatterPlot.RegressionResult.mk.injEq] at heq
    exact Option.noConfusion heq.1
  next slope hslope =>
    simp only [ScatterPlot.RegressionResult.mk.injEq, Option.some.injEq] at heq
    obtain ⟨hs, hi, -⟩ := heq
    have hn0 : ¬ data.length = 0 := by omega
    have hn : (data.length : ℚ) ≠ 0 := Nat.cast_ne_zero.2 hn0
    rw [← hi, ← hs, jsMean, jsMean, List.length_map, List.length_map,
      if_neg hn0, if_neg hn0]
    field_simp

/-- Witness for C9's amended theorem at `[(0,5),(1,5)]`: all `y`
identical, so `r2` is non-finite, yet slope `0` and intercept `5` are
returned and indeed `5 = mean ys − 0 · mean xs` — the centroid identity
holds even on this partially-finite result. -/
theorem regression_centroid_witness :
    (5 : ℚ) = jsMean ([(0, 5), (1, 5)].map Prod.snd) -
      0 * jsMean ([((0 : ℚ), (5 : ℚ)), (1, 5)].map Prod.fst) :=
  regression_centroid [(0, 5), (1, 5)] 0 5 none (by norm_num)
    (by norm_num [ScatterPlot.calculateLinearRegression, jdivQ,
      ScatterPlot.RegressionResult.mk.injEq])

/-! ### Correlation helper lemmas -/

lemma corrSxx_nonneg (pd : List (ℚ × ℚ)) : 0 ≤ CorrelationMatrix.corrSxx pd := by
  rw [CorrelationMatrix.corrSxx]
  apply List.sum_nonneg
  intro v hv
  obtain ⟨d, -, rfl⟩ := List.mem_map.1 hv
  positivity

lemma corrSyy_nonneg (pd : List (ℚ × ℚ)) : 0 ≤ CorrelationMatrix.corrSyy pd := by
  rw [CorrelationMatrix.corrSyy]
  apply List.sum_nonneg
  intro v hv
  obtain ⟨d, -, rfl⟩ := List.mem_map.1 hv
  positivity

lemma sqrt_corrSxx_eq_zero (pd : List (ℚ × ℚ)) :
    Real.sqrt (CorrelationMatrix.corrSxx pd : ℝ) = 0 ↔ CorrelationMatrix.corrSxx pd = 0 := by
  rw [Real.sqrt_eq_zero (by exact_mod_cast corrSxx_nonneg pd)]
  exact_mod_cast Iff.rfl

lemma sqrt_corrSyy_eq_zero (pd : List (ℚ × ℚ)) :
    Real.sqrt (CorrelationMatrix.corrSyy pd : ℝ) = 0 ↔ CorrelationMatrix.corrSyy pd = 0 := by
  rw [Real.sqrt_eq_zero (by exact_mod_cast corrSyy_nonneg pd)]
  exact_mod_cast Iff.rfl

/-! ### C1 — the correlation is total and degenerate cases return 0 -/

/-- C1: `CorrelationMatrix.calculateCorrelation` always returns a finite
value (never NaN/Infinity), and returns exactly `0` when fewer than 2
NaN-filtered pairs remain or either centered sum of squares is `0`. -/
theorem correlation_total_and_degenerate (x y : List JsNum) :
    (∃ r : ℝ, CorrelationMatrix.calculateCorrelation x y = some r) ∧
    ((CorrelationMatrix.pairedData x y).length < 2 ∨
        CorrelationMatrix.corrSxx (CorrelationMatrix.pairedData x y) = 0 ∨
        CorrelationMatrix.corrSyy (CorrelationMatrix.pairedData x y) = 0 →
      CorrelationMatrix.calculateCorrelation x y = some 0) := by
  simp only [CorrelationMatrix.calculateCorrelation]
  by_cases h1 : (CorrelationMatrix.pairedData x y).length < 2
  · refine ⟨⟨0, ?_⟩, fun _ => ?_⟩ <;> rw [if_pos h1]
  · by_cases h2 : Real.sqrt (CorrelationMatrix.corrSxx (CorrelationMatrix.pairedData x y) : ℝ) = 0 ∨
        Real.sqrt (CorrelationMatrix.corrSyy (CorrelationMatrix.pairedData x y) : ℝ) = 0
    · refine ⟨⟨0, ?_⟩, fun _ => ?_⟩ <;> rw [if_neg h1, if_pos h2]
    · have h2' := h2
      push_neg at h2'
      obtain ⟨hx0, hy0⟩ := h2'
      have hxpos : 0 < Real.sqrt (CorrelationMatrix.corrSxx (CorrelationMatrix.pairedData x y) : ℝ) :=
        lt_of_le_of_ne (Real.sqrt_nonneg _) (Ne.symm hx0)
      have hypos : 0 < Real.sqrt (CorrelationMatrix.corrSyy (CorrelationMatrix.pairedData x y) : ℝ) :=
        lt_of_le_of_ne (Real.sqrt_nonneg _) (Ne.symm hy0)
      have hprod : Real.sqrt (CorrelationMatrix.corrSxx (CorrelationMatrix.pairedData x y) : ℝ) *
          Real.sqrt (CorrelationMatrix.corrSyy (CorrelationMatrix.pairedData x y) : ℝ) ≠ 0 :=
        ne_of_gt (mul_pos hxpos hypos)
      constructor
      · rw [if_neg h1, if_neg h2, jdivR, if_neg hprod]
        exact ⟨_, rfl⟩
      · intro hdeg
        rcases hdeg with h | h | h
        · exact absurd h h1
        · exact absurd ((sqrt_corrSxx_eq_zero _).2 h) hx0
        · exact absurd ((sqrt_corrSyy_eq_zero _).2 h) hy0

/-- Witness for C1: the spec's two fallback examples,
`pearsonCorrelation([], []) == 0` and `pearsonCorrelation([1], [2]) == 0`. -/
theorem correlation_degenerate_witness :
    CorrelationMatrix.calculateCorrelation [] [] = some 0 ∧
      CorrelationMatrix.calculateCorrelation [some 1] [some 2] = some 0 :=
  ⟨(correlation_total_and_degenerate [] []).2 (Or.inl (by decide)),
   (correlation_total_and_degenerate [some 1] [some 2]).2 (Or.inl (by decide))⟩

/-! ### C6 — diagonal entries of the correlation matrix -/

open CorrelationMatrix in
lemma pairedData_self (F : List ℚ) :
    pairedData (F.map some) (F.map some) = F.map fun v => (v, v) := by
  simp only [pairedData, min_self, List.take_length]
  rw [List.zip_map' some some F, List.filterMap_map]
  have hcomp : ((fun d : JsNum × JsNum =>
      match d with
      | (some a, some b) => some (a, b)
      | _ => none) ∘ fun v : ℚ => (some v, some v)) =
      some ∘ (fun v : ℚ => (v, v)) := rfl
  rw [hcomp, List.filterMap_eq_map]

open CorrelationMatrix in
lemma correlation_self_distinct (F : List ℚ) (a b : ℚ) (ha : a ∈ F) (hb : b ∈ F)
    (hab : a ≠ b) :
    calculateCorrelation (F.map some) (F.map some) = some 1 := by
  have hpd := pairedData_self F
  have hlen2 : 2 ≤ F.length := two_le_length_of_ne F a b ha hb hab
  have hfst : (F.map fun v => (v, v)).map Prod.fst = F := by
    simp [List.map_map, Function.comp_def]
  have hsnd : (F.map fun v => (v, v)).map Prod.snd = F := by
    simp [List.map_map, Function.comp_def]
  have hSxx : corrSxx (F.map fun v => (v, v)) = (F.map fun v => (v - jsMean F) ^ 2).sum := by
    rw [corrSxx, hfst, List.map_map]
    rfl
  have hSyy : corrSyy (F.map fun v => (v, v)) = (F.map fun v => (v - jsMean F) ^ 2).sum := by
    rw [corrSyy, hsnd, List.map_map]
    rfl
  have hNum : corrNum (F.map fun v => (v, v)) = (F.map fun v => (v - jsMean F) ^ 2).sum := by
    rw [corrNum, hfst, hsnd, List.map_map]
    exact congrArg List.sum (List.map_congr_left fun v _ => by
      simp only [Function.comp_def]
      ring)
  have hpos : 0 < (F.map fun v => (v - jsMean F) ^ 2).sum :=
    sum_sq_pos_of_ne F (jsMean F) a b ha hb hab
  have hcast : (0 : ℝ) < (((F.map fun v => (v - jsMean F) ^ 2).sum : ℚ) : ℝ) := by
    exact_mod_cast hpos
  have hsq : Real.sqrt (((F.map fun v => (v - jsMean F) ^ 2).sum : ℚ) : ℝ) ≠ 0 :=
    Real.sqrt_ne_zero'.mpr hcast
  simp only [calculateCorrelation, hpd, hSxx, hSyy, hNum, List.length_map]
  rw [if_neg (by omega), if_neg (by push_neg; exact ⟨hsq, hsq⟩), jdivR,
    Real.mul_self_sqrt (le_of_lt hcast), if_neg (ne_of_gt hcast),
    div_self (ne_of_gt hcast)]

open CorrelationMatrix in
lemma correlation_self_const (F : List ℚ) (h : ∀ a ∈ F, ∀ b ∈ F, a = b) :
    calculateCorrelation (F.map some) (F.map some) = some 0 := by
  have hpd := pairedData_self F
  by_cases hlen : F.length < 2
  · simp only [calculateCorrelation, hpd, List.length_map]
    rw [if_pos hlen]
  · cases F with
    | nil => simp at hlen
    | cons c t =>
      have hc : ∀ x ∈ c :: t, x = c := fun x hx => h x hx c (List.mem_cons_self c t)
      have hmean : jsMean (c :: t) = c := jsMean_of_all_eq _ c hc (by simp)
      have hfst : ((c :: t).map fun v => (v, v)).map Prod.fst = c :: t := by
        simp [List.map_map, Function.comp_def]
      have hSxx : corrSxx ((c :: t).map fun v => (v, v)) = 0 := by
        rw [corrSxx, hfst, List.map_map]
        apply List.sum_eq_zero
        intro v hv
        obtain ⟨x, hx, rfl⟩ := List.mem_map.1 hv
        simp only [Function.comp_def, hmean]
        rw [hc x hx]
        ring
      simp only [calculateCorrelation, hpd, hSxx, List.length_map]
      rw [if_neg hlen, if_pos (Or.inl (by norm_num))]

/-- C6: a diagonal entry of the correlation matrix is `1` whenever the
field has two distinct values, and `0` under the zero-variance fallback
(all values identical, which also covers fields with fewer than 2
values). -/
theorem correlation_matrix_diagonal (fields : List (List ℚ)) (i : ℕ) :
    ((∃ a ∈ fields.getD i [], ∃ b ∈ fields.getD i [], a ≠ b) →
      CorrelationMatrix.matrixEntry fields i i = some 1) ∧
    ((∀ a ∈ fields.getD i [], ∀ b ∈ fields.getD i [], a = b) →
      CorrelationMatrix.matrixEntry fields i i = some 0) := by
  constructor
  · rintro ⟨a, ha, b, hb, hab⟩
    exact correlation_self_distinct (fields.getD i []) a b ha hb hab
  · intro h
    exact correlation_self_const (fields.getD i []) h

/-- Witness for C6: over the single field `[0, 2]` (two distinct values)
the diagonal entry is exactly `1`. -/
theorem correlation_matrix_diagonal_witness :
    CorrelationMatrix.matrixEntry [[0, 2]] 0 0 = some 1 :=
  (correlation_matrix_diagonal [[0, 2]] 0).1 ⟨0, by simp, 2, by simp, by norm_num⟩

/-! ### C7 — symmetry of the correlation and of the matrix -/

open CorrelationMatrix in
lemma pairedData_swap (x y : List JsNum) :
    pairedData y x = (pairedData x y).map Prod.swap := by
  simp only [pairedData]
  rw [min_comm y.length x.length]
  have hz : (y.take (min x.length y.length)).zip (x.take (min x.length y.length)) =
      ((x.take (min x.length y.length)).zip (y.take (min x.length y.length))).map Prod.swap :=
    (List.zip_swap _ _).symm
  rw [hz, List.map_filterMap, List.filterMap_map]
  congr 1
  funext d
  rcases d with ⟨a | a, b | b⟩ <;> rfl

open CorrelationMatrix in
lemma map_fst_swap (pd : List (ℚ × ℚ)) :
    pd.map (Prod.fst ∘ Prod.swap) = pd.map Prod.snd :=
  List.map_congr_left fun _ _ => rfl

open CorrelationMatrix in
lemma map_snd_swap (pd : List (ℚ × ℚ)) :
    pd.map (Prod.snd ∘ Prod.swap) = pd.map Prod.fst :=
  List.map_congr_left fun _ _ => rfl

open CorrelationMatrix in
lemma corrNum_swap (pd : List (ℚ × ℚ)) : corrNum (pd.map Prod.swap) = corrNum pd := by
  simp only [corrNum, List.map_map, map_fst_swap, map_snd_swap]
  exact congrArg List.sum (List.map_congr_left fun d _ => by
    simp only [Function.comp_def, Prod.fst_swap, Prod.snd_swap]
    ring)

open CorrelationMatrix in
lemma corrSxx_swap (pd : List (ℚ × ℚ)) : corrSxx (pd.map Prod.swap) = corrSyy pd := by
  simp only [corrSxx, corrSyy, List.map_map, map_fst_swap]
  exact congrArg List.sum (List.map_congr_left fun _ _ => by
    simp only [Function.comp_def, Prod.fst_swap])

open CorrelationMatrix in
lemma corrSyy_swap (pd : List (ℚ × ℚ)) : corrSyy (pd.map Prod.swap) = corrSxx pd := by
  simp only [corrSxx, corrSyy, List.map_map, map_snd_swap]
  exact congrArg List.sum (List.map_congr_left fun _ _ => by
    simp only [Function.comp_def, Prod.snd_swap])

/-- C7: `calculateCorrelation` is symmetric in its two arguments, and hence
the correlation matrix satisfies `matrix[i][j] = matrix[j][i]` exactly. -/
theorem correlation_symmetric (x y : List JsNum) (fields : List (List ℚ)) (i j : ℕ) :
    CorrelationMatrix.calculateCorrelation x y = CorrelationMatrix.calculateCorrelation y x ∧
    CorrelationMatrix.matrixEntry fields i j = CorrelationMatrix.matrixEntry fields j i := by
  have key : ∀ u v : List JsNum,
      CorrelationMatrix.calculateCorrelation u v = CorrelationMatrix.calculateCorrelation v u := by
    intro u v
    simp only [CorrelationMatrix.calculateCorrelation, pairedData_swap u v, List.length_map,
      corrNum_swap, corrSxx_swap, corrSyy_swap]
    by_cases h1 : (CorrelationMatrix.pairedData u v).length < 2
    · rw [if_pos h1, if_pos h1]
    · rw [if_neg h1, if_neg h1]
      by_cases h2 :
          Real.sqrt (CorrelationMatrix.corrSxx (CorrelationMatrix.pairedData u v) : ℝ) = 0 ∨
          Real.sqrt (CorrelationMatrix.corrSyy (CorrelationMatrix.pairedData u v) : ℝ) = 0
      · rw [if_pos h2, if_pos (or_comm.mp h2)]
      · rw [if_neg h2, if_neg (fun hc => h2 (or_comm.mp hc)), mul_comm]
  exact ⟨key x y, key _ _⟩

/-! ### C10 — which leading pairs the two correlation versions use -/

open CorrelationMatrix in
lemma pairedData_append_right (x y zs : List JsNum) (h : x.length ≤ y.length) :
    pairedData x (y ++ zs) = pairedData x y := by
  simp only [pairedData, List.length_append]
  rw [min_eq_left (by omega : x.length ≤ y.length + zs.length), min_eq_left h,
    List.take_append_eq_append_take, Nat.sub_eq_zero_of_le h, List.take_zero,
    List.append_nil]

open CorrelationMatrix in
lemma pairedData_append_left (x y zs : List JsNum) (h : y.length ≤ x.length) :
    pairedData (x ++ zs) y = pairedData x y := by
  simp only [pairedData, List.length_append]
  rw [min_eq_right (by omega : y.length ≤ x.length + zs.length), min_eq_right h,
    List.take_append_eq_append_take, Nat.sub_eq_zero_of_le h, List.take_zero,
    List.append_nil]

/-- C10 amended: the `CorrelationMatrix` version slices both inputs to the
first `min(|xs|,|ys|)` entries, so appending trailing data to the longer
array never changes its result. (The `CategoryHeatmap` version does not —
see the counterexample.) -/
theorem correlation_uses_min_pairs (x y zs : List JsNum) :
    (x.length ≤ y.length →
      CorrelationMatrix.calculateCorrelation x (y ++ zs) =
        CorrelationMatrix.calculateCorrelation x y) ∧
    (y.length ≤ x.length →
      CorrelationMatrix.calculateCorrelation (x ++ zs) y =
        CorrelationMatrix.calculateCorrelation x y) := by
  constructor
  · intro h
    simp only [CorrelationMatrix.calculateCorrelation, pairedData_append_right x y zs h]
  · intro h
    simp only [CorrelationMatrix.calculateCorrelation, pairedData_append_left x y zs h]

/-- Witness for C10's amended theorem at concrete equal-length inputs. -/
theorem correlation_uses_min_pairs_witness :
    CorrelationMatrix.calculateCorrelation [some 1, some 2] ([some 1, some 2] ++ [some 5]) =
      CorrelationMatrix.calculateCorrelation [some 1, some 2] [some 1, some 2] :=
  (correlation_uses_min_pairs [some 1, some 2] [some 1, some 2] [some 5]).1 (by decide)

/-- C10 as stated is false for `CategoryHeatmap.calculateCorrelation`: its
means and denominators range over *all* elements of each input, so
appending `[2]` to the (equal-length, hence longer) second array changes
the result from `1` to `1/2`. -/
theorem heatmap_correlation_not_min_pairs :
    CategoryHeatmap.calculateCorrelation [0, 1] ([0, 1] ++ [2]) ≠
      CategoryHeatmap.calculateCorrelation [0, 1] [0, 1] := by
  have hR : CategoryHeatmap.calculateCorrelation [0, 1] [0, 1] = some 1 := by
    have hm : jsMean [0, 1] = 1 / 2 := by norm_num [jsMean]
    simp only [CategoryHeatmap.calculateCorrelation]
    rw [if_neg (by simp), hm]
    norm_num [List.zip_cons_cons, List.zip_nil_left, List.zip_nil_right]
    rw [jdivR, ← mul_inv, Real.mul_self_sqrt (by norm_num : (0 : ℝ) ≤ 2),
      if_neg (by norm_num)]
    norm_num
  have hL : CategoryHeatmap.calculateCorrelation [0, 1] ([0, 1] ++ [2]) = some (1 / 2) := by
    have hmx : jsMean [0, 1] = 1 / 2 := by norm_num [jsMean]
    have hmy : jsMean ([0, 1] ++ [2]) = 1 := by norm_num [jsMean]
    simp only [CategoryHeatmap.calculateCorrelation]
    rw [if_neg (by simp), hmx, hmy]
    norm_num [List.cons_append, List.nil_append, List.zip_cons_cons, List.zip_nil_left,
      List.zip_nil_right]
    rw [jdivR, if_neg one_ne_zero, div_one]
  rw [hL, hR]
  intro hc
  rw [Option.some.injEq] at hc
  norm_num at hc

/-! ### Binning helper lemmas -/

open CategoryHeatmap in
/-- `d3.extent` returns exactly the minimum and maximum of a nonempty
list. -/
lemma jsExtent_eq (l : List ℚ) (a b : ℚ) (ha : a ∈ l) (hb : b ∈ l)
    (hla : ∀ v ∈ l, a ≤ v) (hlb : ∀ v ∈ l, v ≤ b) :
    jsExtent l = (some a, some b) := by
  haveI : Std.Antisymm ((· ≤ ·) : ℚ → ℚ → Prop) := ⟨fun h h2 => le_antisymm h h2⟩
  rw [jsExtent, Prod.mk.injEq]
  constructor
  · exact (List.min?_eq_some_iff (fun v => le_refl v) (fun v w => min_choice v w)
      (fun v w u => le_min_iff)).2 ⟨ha, hla⟩
  · exact (List.max?_eq_some_iff (fun v => le_refl v) (fun v w => max_choice v w)
      (fun v w u => max_le_iff)).2 ⟨hb, hlb⟩

open CategoryHeatmap in
/-- Closed form of `ratToFixed1` once the scaled floor of the magnitude is
known. -/
lemma ratToFixed1_eq (q : ℚ) (n : ℤ) (h : ⌊10 * |q| + 1 / 2⌋ = n) (s : String)
    (hs : (if q < 0 then "-" else "") ++ Nat.repr (n.natAbs / 10) ++ "." ++
      Nat.repr (n.natAbs % 10) = s) : ratToFixed1 q = s := by
  rw [ratToFixed1]
  rw [h, hs]

/-! ### C4 — shape, boundaries and labels of the bins -/

open CategoryHeatmap in
/-- C4: for a nonempty value list with minimum `a`, maximum `b`, `a < b`
and `numBins > 0`, `createBins` returns exactly `numBins` bins; bin `i`
spans `[gmin + i·w, gmin + (i+1)·w)` for `gmin = ⌊a⌋`, `gmax = ⌈b⌉`,
`w = (gmax − gmin)/numBins`, labeled `"{min}-{max}"` with both bounds
rendered by `toFixed(1)`. -/
theorem createBins_shape (values : List ℚ) (numBins : ℕ) (a b : ℚ)
    (hn : 0 < numBins) (ha : a ∈ values) (hb : b ∈ values)
    (hla : ∀ v ∈ values, a ≤ v) (hlb : ∀ v ∈ values, v ≤ b) (hab : a < b) :
    (createBins values numBins).length = numBins ∧
    ∀ i : ℕ, i < numBins →
      (createBins values numBins)[i]? = some
        { min := some ((⌊a⌋ : ℚ) + i * (((⌈b⌉ : ℚ) - (⌊a⌋ : ℚ)) / numBins))
          max := some ((⌊a⌋ : ℚ) + ((i : ℚ) + 1) * (((⌈b⌉ : ℚ) - (⌊a⌋ : ℚ)) / numBins))
          label :=
            ratToFixed1 ((⌊a⌋ : ℚ) + i * (((⌈b⌉ : ℚ) - (⌊a⌋ : ℚ)) / numBins)) ++ "-" ++
            ratToFixed1 ((⌊a⌋ : ℚ) + ((i : ℚ) + 1) * (((⌈b⌉ : ℚ) - (⌊a⌋ : ℚ)) / numBins)) } := by
  have hext := jsExtent_eq values a b ha hb hla hlb
  constructor
  · simp [createBins, List.length_map, List.length_range]
  · intro i hi
    simp only [createBins, hext, Option.map_some', oSub, oAdd, oMul, oDivN,
      if_neg (Nat.pos_iff_ne_zero.1 hn)]
    rw [List.getElem?_map, List.getElem?_range hi]
    simp only [Option.map_some', jsToFixed1]

open CategoryHeatmap in
/-- Witness for C4: the spec's own example, domain `[4,10]` with 4 bins of
width 1.5; bin 0 is `[4, 5.5)` labeled `"4.0-5.5"`. -/
theorem createBins_shape_witness :
    (CategoryHeatmap.createBins [(4 : ℚ), 10] 4).length = 4 ∧
    (CategoryHeatmap.createBins [(4 : ℚ), 10] 4)[0]? =
      some { min := some 4, max := some (11 / 2),
             label := "4.0-5.5" } := by
  have h := createBins_shape [(4 : ℚ), 10] 4 4 10 (by norm_num)
    (by simp) (by simp)
    (by intro v hv; simp at hv; rcases hv with rfl | rfl <;> norm_num)
    (by intro v hv; simp at hv; rcases hv with rfl | rfl <;> norm_num)
    (by norm_num)
  refine ⟨h.1, ?_⟩
  rw [h.2 0 (by norm_num)]
  have hone : ratToFixed1 4 = "4.0" :=
    ratToFixed1_eq 4 40 (by norm_num [Int.floor_eq_iff])
    _ (by rw [if_neg (by norm_num : ¬ (4 : ℚ) < 0)]; decide)
  have htwo : ratToFixed1 (11 / 2) = "5.5" :=
    ratToFixed1_eq (11 / 2) 55
      (by rw [show |(11 / 2 : ℚ)| = 11 / 2 from abs_of_pos (by norm_num)]
          norm_num [Int.floor_eq_iff])
      _ (by rw [if_neg (by norm_num : ¬ (11 / 2 : ℚ) < 0)]; decide)
  norm_num [Int.floor_eq_iff, Int.ceil_eq_iff, hone, htwo]
  decide

/-! ### Concrete `toFixed(1)` values used by the binning evaluations -/

open CategoryHeatmap in
lemma rat40 : ratToFixed1 4 = "4.0" :=
  ratToFixed1_eq 4 40 (by norm_num [Int.floor_eq_iff])
    _ (by rw [if_neg (by norm_num : ¬ (4 : ℚ) < 0)]; decide)

open CategoryHeatmap in
lemma rat50 : ratToFixed1 5 = "5.0" :=
  ratToFixed1_eq 5 50 (by norm_num [Int.floor_eq_iff])
    _ (by rw [if_neg (by norm_num : ¬ (5 : ℚ) < 0)]; decide)

open CategoryHeatmap in
lemma rat60 : ratToFixed1 6 = "6.0" :=
  ratToFixed1_eq 6 60 (by norm_num [Int.floor_eq_iff])
    _ (by rw [if_neg (by norm_num : ¬ (6 : ℚ) < 0)]; decide)

open CategoryHeatmap in
lemma rat70 : ratToFixed1 7 = "7.0" :=
  ratToFixed1_eq 7 70 (by norm_num [Int.floor_eq_iff])
    _ (by rw [if_neg (by norm_num : ¬ (7 : ℚ) < 0)]; decide)

open CategoryHeatmap in
lemma rat80 : ratToFixed1 8 = "8.0" :=
  ratToFixed1_eq 8 80 (by norm_num [Int.floor_eq_iff])
    _ (by rw [if_neg (by norm_num : ¬ (8 : ℚ) < 0)]; decide)

open CategoryHeatmap in
lemma rat90 : ratToFixed1 9 = "9.0" :=
  ratToFixed1_eq 9 90 (by norm_num [Int.floor_eq_iff])
    _ (by rw [if_neg (by norm_num : ¬ (9 : ℚ) < 0)]; decide)

open CategoryHeatmap in
lemma rat100 : ratToFixed1 10 = "10.0" :=
  ratToFixed1_eq 10 100 (by norm_num [Int.floor_eq_iff])
    _ (by rw [if_neg (by norm_num : ¬ (10 : ℚ) < 0)]; decide)

lemma range6 : List.range 6 = [0, 1, 2, 3, 4, 5] := rfl

open CategoryHeatmap in
/-- The six default bins over the integer domain `[4,10]`: width 1, all
half-open with a strict upper bound. -/
lemma createBins_4_10 : createBins [4, 5, 6, 7, 8, 9, 10] 6 =
    [⟨some 4, some 5, "4.0-5.0"⟩, ⟨some 5, some 6, "5.0-6.0"⟩, ⟨some 6, some 7, "6.0-7.0"⟩,
     ⟨some 7, some 8, "7.0-8.0"⟩, ⟨some 8, some 9, "8.0-9.0"⟩,
     ⟨some 9, some 10, "9.0-10.0"⟩] := by
  have he : jsExtent [4, 5, 6, 7, 8, 9, 10] = (some 4, some 10) := by
    simp [jsExtent, List.min?, List.max?, min_def, max_def]
    norm_num
  rw [createBins, he]
  norm_num [oSub, oAdd, oMul, oDivN, range6, jsToFixed1, Int.floor_eq_iff, Int.ceil_eq_iff,
    rat40, rat50, rat60, rat70, rat80, rat90, rat100]
  decide

open CategoryHeatmap in
/-- The six degenerate bins over the constant list `[5,5]`: all collapse to
the zero-width interval `[5,5]` with identical labels. -/
lemma createBins_5_5 : createBins [(5 : ℚ), 5] 6 =
    List.replicate 6 ⟨some 5, some 5, "5.0-5.0"⟩ := by
  have he : jsExtent [(5 : ℚ), 5] = (some 5, some 5) := by
    simp [jsExtent, List.min?, List.max?]
  rw [createBins, he]
  norm_num [oSub, oAdd, oMul, oDivN, range6, jsToFixed1, Int.floor_eq_iff, Int.ceil_eq_iff,
    rat50, List.replicate]
  decide

/-! ### C3 — the strict upper bound drops the maximum value -/

open CategoryHeatmap in
/-- C3: with both category columns equal to `[4,...,10]` (7 rows, none
missing), since every bin — the last included — is assigned with
`value >= min && value < max`, the maximum value `10` falls into no bin
and the counts over all cells sum to `6`, not `7`. -/
theorem processData_drops_max :
    (([4, 5, 6, 7, 8, 9, 10] : List ℚ).map fun v =>
      ((some v : JsNum), (some v : JsNum))).length = 7 ∧
    ((processData (([4, 5, 6, 7, 8, 9, 10] : List ℚ).map fun v => (some v, some v))).map
      HeatmapCell.count).sum = 6 := by
  constructor
  · simp
  · rw [processData]
    norm_num [List.filterMap_cons, createBins_4_10, jsGe, jsLt, List.filter_cons,
      List.filter_nil]

/-! ### C5 — degenerate binning drops every value instead of using bin 0 -/

open CategoryHeatmap in
/-- C5: in the degenerate cases the code produces `numBins` identically
labeled bins as claimed, but (a) with all values identical every bin is
the zero-width `[5,5)` and the assignment predicate
`value >= min && value < max` is false for every bin, so every value is
dropped (counts sum to `0` for 2 valid rows) rather than assigned to
bin 0; and (b) for an empty value list the bin bounds are NaN (`none`),
not a width-0 interval. -/
theorem createBins_degenerate_drops_values :
    (createBins [(5 : ℚ), 5] 6).map Bin.label = List.replicate 6 "5.0-5.0" ∧
    ((processData [(some 5, some 5), (some 5, some 5)]).map HeatmapCell.count).sum = 0 ∧
    (createBins ([] : List ℚ) 6).map Bin.min = List.replicate 6 none := by
  refine ⟨?_, ?_, ?_⟩
  · rw [createBins_5_5]
    decide
  · rw [processData]
    norm_num [List.filterMap_cons, createBins_5_5, jsGe, jsLt, List.filter_cons,
      List.filter_nil, List.replicate]
  · decide

/-! ### C8 — exact recovery of a perfect linear relation -/

/-- C8: on perfectly linear data `y = 2·x + 3` with at least two distinct
`x` values, `ScatterPlot.calculateLinearRegression` returns exactly
`slope = 2`, `intercept = 3`, `r² = 1` (exact arithmetic). -/
theorem regression_perfect_linear (xs : List ℚ)
    (h : ∃ a ∈ xs, ∃ b ∈ xs, a ≠ b) :
    ScatterPlot.calculateLinearRegression (xs.map fun x => (x, 2 * x + 3)) =
      ⟨some 2, some 3, some 1⟩ := by
  obtain ⟨a, ha, b, hb, hab⟩ := h
  have hlen2 : 2 ≤ xs.length := two_le_length_of_ne xs a b ha hb hab
  have hn0 : xs.length ≠ 0 := by omega
  have hN0 : (xs.length : ℚ) ≠ 0 := Nat.cast_ne_zero.2 hn0
  have hlt : ¬ (xs.map fun x => (x, 2 * x + 3)).length < 2 := by
    rw [List.length_map]; omega
  have hfst : (xs.map fun x => (x, 2 * x + 3)).map Prod.fst = xs := by
    simp [List.map_map, Function.comp_def]
  have hsnd : (xs.map fun x => (x, 2 * x + 3)).map Prod.snd =
      xs.map fun x => 2 * x + 3 := by
    simp [List.map_map, Function.comp_def]
  have hxy : (xs.map fun x => (x, 2 * x + 3)).map (fun d => d.1 * d.2) =
      xs.map fun x => x * (2 * x + 3) := by
    simp [List.map_map, Function.comp_def]
  have hx2 : (xs.map fun x => (x, 2 * x + 3)).map (fun d => d.1 * d.1) =
      xs.map fun x => x * x := by
    simp [List.map_map, Function.comp_def]
  have hsumY : (xs.map fun x => 2 * x + 3).sum = 2 * xs.sum + 3 * xs.length :=
    sum_map_affine xs 2 3
  have hsumXY : (xs.map fun x => x * (2 * x + 3)).sum =
      2 * (xs.map fun x => x * x).sum + 3 * xs.sum := sum_map_quad xs 2 3
  have hpos : 0 < (xs.map fun x => (x - xs.sum / xs.length) ^ 2).sum :=
    sum_sq_pos_of_ne xs (xs.sum / xs.length) a b ha hb hab
  have hNpos : (0 : ℚ) < xs.length := by
    have : (0 : ℕ) < xs.length := by omega
    exact_mod_cast this
  have hden_pos : 0 < (xs.length : ℚ) * (xs.map fun x => x * x).sum - xs.sum * xs.sum := by
    rw [slope_den_eq xs hn0]
    positivity
  have hden_ne : (xs.length : ℚ) * (xs.map fun x => x * x).sum - xs.sum * xs.sum ≠ 0 :=
    ne_of_gt hden_pos
  have hslope : jdivQ
      (((xs.map fun x => (x, 2 * x + 3)).length : ℚ) *
          (2 * (xs.map fun x => x * x).sum + 3 * xs.sum) -
        xs.sum * (2 * xs.sum + 3 * xs.length))
      (((xs.map fun x => (x, 2 * x + 3)).length : ℚ) * (xs.map fun x => x * x).sum -
        xs.sum * xs.sum) = some 2 := by
    rw [List.length_map]
    have hnum : (xs.length : ℚ) * (2 * (xs.map fun x => x * x).sum + 3 * xs.sum) -
        xs.sum * (2 * xs.sum + 3 * xs.length) =
        2 * ((xs.length : ℚ) * (xs.map fun x => x * x).sum - xs.sum * xs.sum) := by
      ring
    rw [jdivQ, if_neg hden_ne, hnum, mul_div_assoc, div_self hden_ne, mul_one]
  simp only [ScatterPlot.calculateLinearRegression, if_neg hlt, hfst, hsnd, hxy, hx2,
    hsumY, hsumXY, hslope]
  have hint : (2 * xs.sum + 3 * (xs.length : ℚ) - 2 * xs.sum) /
      ((xs.map fun x => (x, 2 * x + 3)).length : ℚ) = 3 := by
    rw [List.length_map]
    field_simp
  rw [hint]
  have hrss : ((xs.map fun x => (x, 2 * x + 3)).map fun d =>
      (d.2 - (2 * d.1 + 3)) ^ 2).sum = 0 := by
    simp [List.map_map, Function.comp_def]
  have htss_eq : ((xs.map fun x => (x, 2 * x + 3)).map fun d =>
      (d.2 - (2 * xs.sum + 3 * (xs.length : ℚ)) /
        ((xs.map fun x => (x, 2 * x + 3)).length : ℚ)) ^ 2).sum =
      4 * (xs.map fun x => (x - xs.sum / xs.length) ^ 2).sum := by
    rw [List.length_map, List.map_map]
    have hpt : ∀ x ∈ xs, ((fun d : ℚ × ℚ =>
        (d.2 - (2 * xs.sum + 3 * (xs.length : ℚ)) / (xs.length : ℚ)) ^ 2) ∘
          fun x => (x, 2 * x + 3)) x = 4 * (x - xs.sum / xs.length) ^ 2 := by
      intro x _
      simp only [Function.comp]
      field_simp
      ring
    rw [List.map_congr_left hpt, List.sum_map_mul_left]
  rw [hrss, htss_eq]
  have htss_ne : 4 * (xs.map fun x => (x - xs.sum / xs.length) ^ 2).sum ≠ 0 := by
    positivity
  rw [jdivQ, if_neg htss_ne, zero_div]
  norm_num [ScatterPlot.RegressionResult.mk.injEq]

/-- Witness for C8 at `xs = [0, 1]`. -/
theorem regression_perfect_linear_witness :
    ScatterPlot.calculateLinearRegression ([0, 1].map fun x => (x, 2 * x + 3)) =
      ⟨some 2, some 3, some 1⟩ :=
  regression_perfect_linear [0, 1] ⟨0, by simp, 1, by simp, by norm_num⟩

end InfoVis
